import Mathlib

/-!
Verification of the Smart-Car-Wash backend's assignment-and-queue engine.

The definitions below are a shallow embedding of the JavaScript source:
`utils/calculations.js` (calculateDuration, calculatePrice, findBestMobile),
`routes/orders.js` (order creation, the public status route and the deferred
auto-update task) and `routes/admin.js` (the admin status route with its
transaction and queue advancement).  Timestamps are modelled as integers
(milliseconds), coordinates and distances as rationals, and database rows as
lists of records.  The haversine distance function uses floating-point
transcendental functions, so it is kept as an abstract parameter `dist` of the
dispatcher; every theorem about unit selection is proved for an arbitrary
distance function and hence holds for the haversine instance.
-/

namespace CarWash

/-- The status strings accepted by both status routes
(`validStatuses` in `routes/orders.js` and `routes/admin.js`). -/
def validStatuses : List String :=
  ["pending", "assigned", "on_way", "washing", "completed", "cancelled"]

/-- A sub-service token of the `service_type` field.  The source stores
`service_type` as a `+`-separated string and tests membership with
`String.includes`; on the validated vocabulary (`exterior`, `interior`,
`polish`, `wax`, and combinations joined by `+`) substring containment of
`polish`/`wax` coincides with token membership, which is what we model. -/
inductive SubService
  | exterior
  | interior
  | polish
  | wax
deriving DecidableEq

/-- A row of the `mobiles` table (`database/init.js`).  `is_available` is the
0/1 flag modelled as `Bool`; `available_from` is a timestamp. -/
structure Mobile where
  id : ℕ
  locationLat : ℚ
  locationLng : ℚ
  availableFrom : ℤ
  isAvailable : Bool
  currentOrderId : Option ℕ
deriving DecidableEq

/-- A row of the `orders` table, restricted to the columns the engine reads. -/
structure Order where
  id : ℕ
  serviceType : List SubService
  requestedDatetime : ℤ
  locationLat : ℚ
  locationLng : ℚ
  dirtLevel : ℤ
  price : ℤ
  durationMinutes : ℤ
  distanceKm : ℚ
  mobileId : Option ℕ
  status : String
  updatedAt : ℤ
deriving DecidableEq

/-- A row of the append-only `activity_logs` table. -/
structure LogEntry where
  orderId : ℕ
  status : String
  mobileId : Option ℕ
  notes : String
  timestamp : ℤ
deriving DecidableEq

/-- The shared SQLite store: the three tables plus the AUTOINCREMENT counter
for order ids. -/
structure DBState where
  orders : List Order
  mobiles : List Mobile
  logs : List LogEntry
  nextOrderId : ℕ
deriving DecidableEq

/-- `calculateDuration` from `utils/calculations.js`:
base 30 minutes, plus 10 minutes per dirt level, plus 15 minutes when the
service set contains `polish` and 10 minutes when it contains `wax`. -/
def calculateDuration (dirtLevel : ℤ) (serviceType : List SubService) : ℤ :=
  30 + 10 * dirtLevel
    + (if SubService.polish ∈ serviceType then 15 else 0)
    + (if SubService.wax ∈ serviceType then 10 else 0)

/-- JavaScript `Math.round`: round half toward positive infinity. -/
def jsRound (q : ℚ) : ℤ := ⌊q + 1 / 2⌋

/-- `calculatePrice` from `utils/calculations.js`:
base 50 NIS, plus 20 NIS per dirt level, plus 2 NIS per kilometre, rounded
with `Math.round`.  The `serviceType` argument is accepted and ignored, as in
the source. -/
def calculatePrice (dirtLevel : ℤ) (distanceKm : ℚ) (serviceType : List SubService) : ℤ :=
  jsRound (50 + 20 * dirtLevel + 2 * distanceKm)

/-- `Number.prototype.toFixed(2)` followed by `parseFloat`, as applied to the
distances attached to a selected mobile: round to two decimals. -/
def roundTwo (q : ℚ) : ℚ := (⌊q * 100 + 1 / 2⌋ : ℚ) / 100

/-- The filter of `findBestMobile`'s scenario A:
`mobile.is_available === 1 && new Date(mobile.available_from) <= now`. -/
def mobileFreeNow (now : ℤ) (m : Mobile) : Bool :=
  m.isAvailable && decide (m.availableFrom ≤ now)

/-- Distance from a mobile's stored location to the customer, for an abstract
distance function (`calculateDistance` in the source). -/
def distTo (dist : ℚ → ℚ → ℚ → ℚ → ℚ) (cLat cLng : ℚ) (m : Mobile) : ℚ :=
  dist m.locationLat m.locationLng cLat cLng

/-- The `forEach` accumulator loop of scenario A: keep the current best mobile
and its (unrounded) distance, replacing it only on a strictly smaller
distance, so the first minimum in iteration order wins. -/
def selectClosestAux (dist : ℚ → ℚ → ℚ → ℚ → ℚ) (cLat cLng : ℚ) :
    Mobile → ℚ → List Mobile → Mobile × ℚ
  | best, bestDist, [] => (best, bestDist)
  | best, bestDist, m :: rest =>
      let d := distTo dist cLat cLng m
      if d < bestDist then selectClosestAux dist cLat cLng m d rest
      else selectClosestAux dist cLat cLng best bestDist rest

/-- Scenario B's per-mobile lookup: the most recently requested active order
assigned to the mobile (`filter` by `mobile_id`, `sort` descending by
`requested_datetime`, take `[0]`).  JavaScript `Array.prototype.sort` is
stable, which `List.insertionSort` also is. -/
def byRequestedDesc (a b : Order) : Prop :=
  b.requestedDatetime ≤ a.requestedDatetime

instance : DecidableRel byRequestedDesc :=
  fun a b => inferInstanceAs (Decidable (b.requestedDatetime ≤ a.requestedDatetime))

instance : IsTotal Order byRequestedDesc :=
  ⟨fun a b => le_total b.requestedDatetime a.requestedDatetime⟩

instance : IsTrans Order byRequestedDesc :=
  ⟨fun _ _ _ h1 h2 => le_trans h2 h1⟩

/-- The last (most recently requested) active order bound to mobile `mid`. -/
def lastOrderForMobile (activeOrders : List Order) (mid : ℕ) : Option Order :=
  (List.insertionSort byRequestedDesc
    (activeOrders.filter (fun o => decide (o.mobileId = some mid)))).head?

/-- The position scenario B measures distance from: the location of the
mobile's most recently requested active order if one exists, otherwise the
mobile's own stored location. -/
def effectiveStart (activeOrders : List Order) (m : Mobile) : ℚ × ℚ :=
  match lastOrderForMobile activeOrders m.id with
  | some o => (o.locationLat, o.locationLng)
  | none => (m.locationLat, m.locationLng)

/-- Scenario B's comparator `a.effective_available_from - b.effective_available_from`
on the enriched `(mobile, distance)` pairs: ascending by `available_from`. -/
def byAvailFrom (a b : Mobile × ℚ) : Prop :=
  a.1.availableFrom ≤ b.1.availableFrom

instance : DecidableRel byAvailFrom :=
  fun a b => inferInstanceAs (Decidable (a.1.availableFrom ≤ b.1.availableFrom))

instance : IsTotal (Mobile × ℚ) byAvailFrom :=
  ⟨fun a b => le_total a.1.availableFrom b.1.availableFrom⟩

instance : IsTrans (Mobile × ℚ) byAvailFrom :=
  ⟨fun _ _ _ h1 h2 => le_trans h1 h2⟩

/-- `findBestMobile` from `utils/calculations.js`.  Scenario A: some unit is
free now — pick the strictly closest free unit, first wins on ties, and attach
the two-decimal rounded distance.  Scenario B: every unit is busy — enrich
each unit with the distance from its effective start position, sort (stably)
by `available_from` ascending and return the first.  Returns `none` only when
the mobile list is empty. -/
def findBestMobile (now : ℤ) (dist : ℚ → ℚ → ℚ → ℚ → ℚ)
    (mobiles : List Mobile) (cLat cLng : ℚ) (activeOrders : List Order) :
    Option (Mobile × ℚ) :=
  match mobiles.filter (mobileFreeNow now) with
  | m :: rest =>
      let r := selectClosestAux dist cLat cLng m (distTo dist cLat cLng m) rest
      some (r.1, roundTwo r.2)
  | [] =>
      (List.insertionSort byAvailFrom
        (mobiles.map (fun m =>
          let p := effectiveStart activeOrders m
          (m, roundTwo (dist p.1 p.2 cLat cLng))))).head?

/-- `SELECT * FROM orders WHERE id = ?` via `db.get`: the first row with the
given id. -/
def findOrder (orders : List Order) (oid : ℕ) : Option Order :=
  orders.find? (fun o => decide (o.id = oid))

/-- `UPDATE orders SET status = ?, updated_at = CURRENT_TIMESTAMP WHERE id = ?`. -/
def updateOrderStatus (oid : ℕ) (s : String) (now : ℤ) (orders : List Order) : List Order :=
  orders.map (fun o => if o.id = oid then { o with status := s, updatedAt := now } else o)

/-- Ascending comparator on `requested_datetime`, the `ORDER BY
requested_datetime ASC` of the queue-advance query. -/
def byRequestedAsc (a b : Order) : Prop :=
  a.requestedDatetime ≤ b.requestedDatetime

instance : DecidableRel byRequestedAsc :=
  fun a b => inferInstanceAs (Decidable (a.requestedDatetime ≤ b.requestedDatetime))

instance : IsTotal Order byRequestedAsc :=
  ⟨fun a b => le_total a.requestedDatetime b.requestedDatetime⟩

instance : IsTrans Order byRequestedAsc :=
  ⟨fun _ _ _ h1 h2 => le_trans h1 h2⟩

/-- The queue-advance lookup of the admin status route:
`SELECT * FROM orders WHERE mobile_id = ? AND status = 'pending' ORDER BY
requested_datetime ASC LIMIT 1`. -/
def nextPendingOrder (orders : List Order) (mid : ℕ) : Option Order :=
  (List.insertionSort byRequestedAsc
    (orders.filter (fun o => decide (o.mobileId = some mid ∧ o.status = "pending")))).head?

/-- Error outcomes of the admin status route that are decided before any
write: an unrecognized status value, or no order row with the given id.  Both
paths in the source return before touching the store. -/
inductive AdminErr
  | invalidStatus
  | orderNotFound
deriving DecidableEq

/-- The first two writes of the admin status route (inside its transaction):
update the order row, then append one activity-log entry carrying the order's
mobile id and the given note (or the default note text). -/
def adminTransitionCore (now : ℤ) (oid : ℕ) (status : String) (notes : Option String)
    (j : Order) (st : DBState) : DBState :=
  { st with
    orders := updateOrderStatus oid status now st.orders,
    logs := st.logs ++
      [⟨oid, status, j.mobileId, notes.getD ("Status updated to " ++ status ++ " by admin"),
        now⟩] }

/-- The queue-advance block of the admin status route, run when the new status
is terminal and the order has a mobile.  If a pending order for the same
mobile exists, promote the earliest-requested one: point the mobile's
`current_order_id` at it, move the mobile to the finished order's location,
set the promoted order to `assigned` and log the auto-assignment.  Otherwise
free the mobile: `is_available = 1`, `current_order_id = NULL`,
`available_from = datetime('now')`, location = the finished order's location. -/
def queueAdvance (now : ℤ) (j : Order) (mid : ℕ) (st1 : DBState) : DBState :=
  match nextPendingOrder st1.orders mid with
  | some next =>
      { st1 with
        mobiles := st1.mobiles.map (fun mb =>
          if mb.id = mid then
            { mb with currentOrderId := some next.id,
                      locationLat := j.locationLat, locationLng := j.locationLng }
          else mb),
        orders := updateOrderStatus next.id "assigned" now st1.orders,
        logs := st1.logs ++ [⟨next.id, "assigned", some mid, "Auto-assigned from queue.", now⟩] }
  | none =>
      { st1 with
        mobiles := st1.mobiles.map (fun mb =>
          if mb.id = mid then
            { mb with isAvailable := true, currentOrderId := none, availableFrom := now,
                      locationLat := j.locationLat, locationLng := j.locationLng }
          else mb) }

/-- `PATCH /api/admin/orders/:id/status` (`routes/admin.js`): validate the
status string, fetch the order (rejecting when absent), update it and log the
transition, and on a terminal status with a bound mobile run the
queue-advance block.  All writes sit inside one BEGIN/COMMIT transaction that
is rolled back on failure, so the error outcomes leave the store untouched. -/
def adminSetStatus (now : ℤ) (oid : ℕ) (status : String) (notes : Option String)
    (st : DBState) : Except AdminErr DBState :=
  if status ∈ validStatuses then
    match findOrder st.orders oid with
    | none => .error .orderNotFound
    | some j =>
        let st1 := adminTransitionCore now oid status notes j st
        if status = "completed" ∨ status = "cancelled" then
          match j.mobileId with
          | some mid => .ok (queueAdvance now j mid st1)
          | none => .ok st1
        else .ok st1
  else .error .invalidStatus

/-- Outcomes of a run of the admin status route in which any single write may
fail: `storeFailure` stands for a rejected statement, after which the `catch`
block issues ROLLBACK. -/
inductive AdminOutcome
  | ok
  | invalidStatus
  | orderNotFound
  | storeFailure
deriving DecidableEq

/-- The admin status route with an injected write failure: `failAt` numbers
the statement (0-based, in issue order: order update, log insert, then the
1 or 3 statements of the queue-advance branch) that rejects; a `failAt` at or
beyond the path length means every statement succeeds and COMMIT runs.  A
failure triggers ROLLBACK, so the observed state is the initial one. -/
def adminSetStatusFail (failAt : ℕ) (now : ℤ) (oid : ℕ) (status : String)
    (notes : Option String) (st : DBState) : DBState × AdminOutcome :=
  if status ∈ validStatuses then
    match findOrder st.orders oid with
    | none => (st, .orderNotFound)
    | some j =>
        let st1 := adminTransitionCore now oid status notes j st
        if status = "completed" ∨ status = "cancelled" then
          match j.mobileId with
          | some mid =>
              match nextPendingOrder st1.orders mid with
              | some _ =>
                  if failAt < 5 then (st, .storeFailure)
                  else (queueAdvance now j mid st1, .ok)
              | none =>
                  if failAt < 3 then (st, .storeFailure)
                  else (queueAdvance now j mid st1, .ok)
          | none => if failAt < 2 then (st, .storeFailure) else (st1, .ok)
        else if failAt < 2 then (st, .storeFailure) else (st1, .ok)
  else (st, .invalidStatus)

/-- The only error outcome the public status route decides before writing. -/
inductive PublicErr
  | invalidStatus
deriving DecidableEq

/-- `PATCH /api/orders/:id/status` (`routes/orders.js`): validate the status
string, then unconditionally update the order row (a no-op when the id does
not exist) and append a log entry (with no mobile id), and, only when the new
status is `completed`, free every mobile whose `current_order_id` is this
order — without touching `available_from` or the location, and with no queue
promotion.  No existence check and no transaction. -/
def publicSetStatus (now : ℤ) (oid : ℕ) (status : String) (notes : Option String)
    (st : DBState) : Except PublicErr DBState :=
  if status ∈ validStatuses then
    let st1 := { st with
      orders := updateOrderStatus oid status now st.orders,
      logs := st.logs ++ [⟨oid, status, none, notes.getD ("Status updated"), now⟩] }
    if status = "completed" then
      .ok { st1 with
        mobiles := st1.mobiles.map (fun mb =>
          if mb.currentOrderId = some oid then
            { mb with isAvailable := true, currentOrderId := none }
          else mb) }
    else .ok st1
  else .error .invalidStatus

/-- The deferred auto-update task scheduled by order creation
(`setTimeout` in `routes/orders.js`): a conditional update
`UPDATE orders SET status = 'assigned' ... WHERE id = ? AND status = 'pending'`;
only when that touched a row (`this.changes > 0`) is the activity-log entry
appended.  When the order is no longer pending the task changes nothing. -/
def autoStatusUpdate (now : ℤ) (oid : ℕ) (mid : ℕ) (st : DBState) : DBState :=
  if st.orders.any (fun o => decide (o.id = oid ∧ o.status = "pending")) then
    { st with
      orders := st.orders.map (fun o =>
        if o.id = oid ∧ o.status = "pending" then
          { o with status := "assigned", updatedAt := now }
        else o),
      logs := st.logs ++
        [⟨oid, "assigned", some mid, "Order automatically confirmed and assigned", now⟩] }
  else st

/-- The request body of `POST /api/orders`, restricted to the fields the
engine reads. -/
structure OrderData where
  vehicleNumber : String
  vehicleType : String
  serviceType : List SubService
  requestedDatetime : ℤ
  locationLat : ℚ
  locationLng : ℚ
  dirtLevel : ℤ
deriving DecidableEq

/-- The vehicle types accepted by the `validateOrder` middleware. -/
def validVehicleTypes : List String :=
  ["sedan", "suv", "truck", "van", "motorcycle"]

/-- The `validateOrder` express-validator chain in `routes/orders.js`:
non-empty vehicle number, known vehicle type, latitude in [-90, 90],
longitude in [-180, 180] and an integer dirt level between 1 and 5.  The
service-type combination check is vacuous here because `serviceType` is
already a list of valid tokens. -/
def validOrderData (od : OrderData) : Prop :=
  od.vehicleNumber ≠ "" ∧ od.vehicleType ∈ validVehicleTypes ∧
  -90 ≤ od.locationLat ∧ od.locationLat ≤ 90 ∧
  -180 ≤ od.locationLng ∧ od.locationLng ≤ 180 ∧
  1 ≤ od.dirtLevel ∧ od.dirtLevel ≤ 5

instance (od : OrderData) : Decidable (validOrderData od) := by
  unfold validOrderData
  infer_instance

/-- The `INSERT INTO orders ...` statement of order creation: append the row
and advance the AUTOINCREMENT counter. -/
def insertOrderWrite (o : Order) : DBState → DBState :=
  fun st => { st with orders := st.orders ++ [o], nextOrderId := st.nextOrderId + 1 }

/-- The `UPDATE mobiles SET is_available = 0, current_order_id = ?,
available_from = ? WHERE id = ?` statement of order creation. -/
def claimMobileWrite (mid oid : ℕ) (availableFrom : ℤ) : DBState → DBState :=
  fun st =>
    { st with
      mobiles := st.mobiles.map (fun mb =>
        if mb.id = mid then
          { mb with isAvailable := false, currentOrderId := some oid,
                    availableFrom := availableFrom }
        else mb) }

/-- The `INSERT INTO activity_logs ...` statement of order creation. -/
def appendLogWrite (e : LogEntry) : DBState → DBState :=
  fun st => { st with logs := st.logs ++ [e] }

/-- Run a sequence of store writes left to right. -/
def applyWrites : List (DBState → DBState) → DBState → DBState
  | [], st => st
  | w :: ws, st => applyWrites ws (w st)

/-- The order row inserted by `POST /api/orders`, with price, duration and
distance computed at assignment time and status `pending`. -/
def newOrderRecord (od : OrderData) (oid : ℕ) (price duration : ℤ) (dkm : ℚ)
    (mid : ℕ) (now : ℤ) : Order :=
  { id := oid, serviceType := od.serviceType, requestedDatetime := od.requestedDatetime,
    locationLat := od.locationLat, locationLng := od.locationLng,
    dirtLevel := od.dirtLevel, price := price, durationMinutes := duration,
    distanceKm := dkm, mobileId := some mid, status := "pending", updatedAt := now }

/-- The three store writes of `POST /api/orders`, in issue order: insert the
order row, claim the mobile (`available_from = now + duration minutes`),
append the creation log entry.  The source runs them as three separate
awaited statements with no enclosing transaction. -/
def createJobWrites (now : ℤ) (od : OrderData) (best : Mobile) (dkm : ℚ) (oid : ℕ) :
    List (DBState → DBState) :=
  let duration := calculateDuration od.dirtLevel od.serviceType
  let price := calculatePrice od.dirtLevel dkm od.serviceType
  [insertOrderWrite (newOrderRecord od oid price duration dkm best.id now),
   claimMobileWrite best.id oid (now + duration * 60000),
   appendLogWrite ⟨oid, "pending", some best.id, "Order created and mobile assigned", now⟩]

/-- Error outcomes of `POST /api/orders` decided before any write. -/
inductive CreateErr
  | invalidInput
  | noUnitAvailable
deriving DecidableEq

/-- `SELECT * FROM orders WHERE status NOT IN ('completed', 'cancelled')`:
the in-flight orders handed to `findBestMobile`. -/
def activeOrdersOf (st : DBState) : List Order :=
  st.orders.filter (fun o => decide (o.status ≠ "completed" ∧ o.status ≠ "cancelled"))

/-- `POST /api/orders` (`routes/orders.js`): validate, select a unit with
`findBestMobile`, then perform the three writes.  The returned `Bool` is the
auto-update-timer condition of the source (`bestMobile.is_available === 1 &&
new Date(bestMobile.available_from) <= new Date()`): `true` exactly when the
chosen unit was free at dispatch time, in which case the source schedules the
one-shot `autoStatusUpdate` task for the new order. -/
def createJob (now : ℤ) (dist : ℚ → ℚ → ℚ → ℚ → ℚ) (od : OrderData) (st : DBState) :
    Except CreateErr (DBState × ℕ × Bool) :=
  if validOrderData od then
    match findBestMobile now dist st.mobiles od.locationLat od.locationLng (activeOrdersOf st) with
    | none => .error .noUnitAvailable
    | some (best, dkm) =>
        let oid := st.nextOrderId
        .ok (applyWrites (createJobWrites now od best dkm oid) st, oid, mobileFreeNow now best)
  else .error .invalidInput

/-- A run of `POST /api/orders` in which only the first `k` of the three
writes succeed before a store failure: because the source uses no
transaction, the failure leaves the first `k` writes committed. -/
def createJobPartial (k : ℕ) (now : ℤ) (dist : ℚ → ℚ → ℚ → ℚ → ℚ) (od : OrderData)
    (st : DBState) : Except CreateErr DBState :=
  if validOrderData od then
    match findBestMobile now dist st.mobiles od.locationLat od.locationLng (activeOrdersOf st) with
    | none => .error .noUnitAvailable
    | some (best, dkm) =>
        .ok (applyWrites ((createJobWrites now od best dkm st.nextOrderId).take k) st)
  else .error .invalidInput

/-! ### Concrete fixtures used in witnesses and counterexamples -/

/-- Rational grid distance, standing in for the haversine `calculateDistance`
(whose floating-point trigonometry is kept abstract) when evaluating the
dispatcher on concrete inputs. -/
def gridDist : ℚ → ℚ → ℚ → ℚ → ℚ := fun lat1 lng1 lat2 lng2 =>
  |lat1 - lat2| + |lng1 - lng2|

/-- Two units, one busy and one free, for the scenario-A witness. -/
def freeScenarioMobiles : List Mobile :=
  [⟨1, 0, 0, 0, false, some 7⟩, ⟨2, 5, 5, 0, true, none⟩]

/-- Two busy units for the scenario-B witness: unit 2 frees up first; unit 1
has an in-flight order that defines its effective position. -/
def busyScenarioMobiles : List Mobile :=
  [⟨1, 0, 0, 500, true, some 7⟩, ⟨2, 5, 5, 300, false, some 8⟩]

/-- The in-flight order bound to unit 1 in the scenario-B witness. -/
def busyScenarioOrders : List Order :=
  [⟨7, [], 50, 3, 4, 2, 90, 50, 5, some 1, "washing", 0⟩]

/-- Orders for the public-route counterexample: order 10 is in progress on
unit 1 and order 11 is queued (pending) behind it. -/
def cexOrders : List Order :=
  [⟨10, [], 100, 3, 4, 2, 90, 50, 5, some 1, "washing", 0⟩,
   ⟨11, [], 200, 6, 7, 3, 110, 60, 5, some 1, "pending", 0⟩]

/-- Unit 1, busy with order 10. -/
def cexMobile : Mobile := ⟨1, 0, 0, 999, false, some 10⟩

/-- Store for the public-route counterexample. -/
def cexState : DBState := ⟨cexOrders, [cexMobile], [], 12⟩

/-- Orders for the admin queue-advance theorems: order 20 is in progress on
unit 2, orders 21 and 22 are pending behind it, order 22 requested earlier. -/
def advOrders : List Order :=
  [⟨20, [], 100, 3, 4, 2, 90, 50, 5, some 2, "washing", 0⟩,
   ⟨21, [], 300, 6, 7, 3, 110, 60, 5, some 2, "pending", 0⟩,
   ⟨22, [], 200, 8, 9, 3, 120, 70, 5, some 2, "pending", 0⟩]

/-- The order finished in the admin queue-advance witnesses. -/
def advOrder20 : Order := ⟨20, [], 100, 3, 4, 2, 90, 50, 5, some 2, "washing", 0⟩

/-- The earliest-requested pending order behind order 20. -/
def advOrder22 : Order := ⟨22, [], 200, 8, 9, 3, 120, 70, 5, some 2, "pending", 0⟩

/-- Unit 2, busy with order 20. -/
def advMobile : Mobile := ⟨2, 10, 11, 999, false, some 20⟩

/-- Store for the admin queue-advance witnesses. -/
def advState : DBState := ⟨advOrders, [advMobile], [], 23⟩

/-- The store after the first two writes of the admin transition on order 20. -/
def advState1 : DBState := adminTransitionCore 1000 20 ("completed") none advOrder20 advState

/-- The store after the whole admin transition on order 20. -/
def advResult : DBState :=
  ((adminSetStatus 1000 20 ("completed") none advState).toOption).getD ⟨[], [], [], 0⟩

/-- Store for the missing-order counterexample: one unrelated order, no
order with id 99. -/
def c7State : DBState :=
  ⟨[⟨30, [], 100, 0, 0, 2, 90, 50, 5, none, "pending", 0⟩], [], [], 31⟩

/-- A single free unit for the order-creation counterexample. -/
def cjMobile : Mobile := ⟨1, 0, 0, 0, true, none⟩

/-- Store for the order-creation counterexample: one free unit, no orders. -/
def cjState : DBState := ⟨[], [cjMobile], [], 10⟩

/-- A valid order-creation request. -/
def validOd : OrderData := ⟨"XY789", "suv", [SubService.exterior], 100, 1, 1, 3⟩

/-- An order-creation request whose dirt level 0 fails validation. -/
def invalidDirtOd : OrderData :=
  ⟨"AB123", "sedan", [SubService.exterior], 0, 0, 0, 0⟩

/-- An empty store. -/
def emptyDB : DBState := ⟨[], [], [], 0⟩

/-! ### Helper lemmas -/

/-- The head of a stable insertion sort is related to every element of the
input list, for a reflexive total transitive relation. -/
theorem head_insertionSort_rel {α : Type} (r : α → α → Prop) [DecidableRel r]
    [IsTotal α r] [IsTrans α r] (hrefl : ∀ a, r a a) (l : List α) (b : α) (t : List α)
    (h : List.insertionSort r l = b :: t) : ∀ x ∈ l, r b x := by
  intro x hx
  have hx' : x ∈ List.insertionSort r l := (List.mem_insertionSort r).2 hx
  rw [h] at hx'
  rcases List.mem_cons.1 hx' with hxb | hxt
  · rw [hxb]
    exact hrefl b
  · have hs := List.sorted_insertionSort r l
    rw [h] at hs
    exact List.rel_of_sorted_cons hs x hxt

/-- Specification of the scenario-A accumulator loop: starting from `best`, it
returns an element of `best :: rest` together with its exact distance, and
that element splits `best :: rest` into a strict-prefix (everything earlier is
strictly farther) and a suffix (everything later is no closer): the first
minimum in iteration order wins. -/
theorem selectClosestAux_spec (dist : ℚ → ℚ → ℚ → ℚ → ℚ) (cLat cLng : ℚ)
    (rest : List Mobile) : ∀ best : Mobile,
    ∃ b, selectClosestAux dist cLat cLng best (distTo dist cLat cLng best) rest
          = (b, distTo dist cLat cLng b) ∧
      distTo dist cLat cLng b ≤ distTo dist cLat cLng best ∧
      ∃ pre pos, best :: rest = pre ++ b :: pos ∧
        (∀ x ∈ pre, distTo dist cLat cLng b < distTo dist cLat cLng x) ∧
        (∀ x ∈ pos, distTo dist cLat cLng b ≤ distTo dist cLat cLng x) := by
  induction rest with
  | nil =>
      intro best
      exact ⟨best, rfl, le_rfl, [], [], rfl, by simp, by simp⟩
  | cons m rest ih =>
      intro best
      by_cases hlt : distTo dist cLat cLng m < distTo dist cLat cLng best
      · obtain ⟨b, heq, hle, pre, pos, hdec, hpre, hpos⟩ := ih m
        refine ⟨b, ?_, le_of_lt (lt_of_le_of_lt hle hlt), best :: pre, pos, ?_, ?_, hpos⟩
        · simpa [selectClosestAux, hlt] using heq
        · simpa using congrArg (best :: ·) hdec
        · intro x hx
          rcases List.mem_cons.1 hx with hxb | hxp
          · rw [hxb]
            exact lt_of_le_of_lt hle hlt
          · exact hpre x hxp
      · obtain ⟨b, heq, hle, pre, pos, hdec, hpre, hpos⟩ := ih best
        have hge : distTo dist cLat cLng best ≤ distTo dist cLat cLng m := not_lt.1 hlt
        refine ⟨b, ?_, hle, ?_⟩
        · simpa [selectClosestAux, hlt] using heq
        · cases pre with
          | nil =>
              rcases (by simpa using hdec : best = b ∧ rest = pos) with ⟨hb, hr⟩
              refine ⟨[], m :: rest, by simp [hb], by simp, ?_⟩
              intro x hx
              rcases List.mem_cons.1 hx with hxm | hxr
              · rw [hxm]
                exact hb ▸ hge
              · rw [hr] at hxr
                exact hpos x hxr
          | cons p pre' =>
              rcases (by simpa using hdec : best = p ∧ rest = pre' ++ b :: pos) with ⟨hb, hr⟩
              refine ⟨best :: m :: pre', pos, by simp [hr], ?_, hpos⟩
              have hbestpre : distTo dist cLat cLng b < distTo dist cLat cLng best := by
                rw [hb]
                exact hpre p (List.mem_cons_self p pre')
              intro x hx
              rcases List.mem_cons.1 hx with hxb | hx'
              · rw [hxb]; exact hbestpre
              · rcases List.mem_cons.1 hx' with hxm | hxp
                · rw [hxm]
                  exact lt_of_lt_of_le hbestpre hge
                · exact hpre x (List.mem_cons_of_mem p hxp)

/-! ### Claim C1 -/

/-- Claim C1: when at least one unit is free now (availability flag set and
`available_from ≤ now`), `findBestMobile` returns a free unit — never a busy
one — whose distance from its current location to the job is minimal among
the free units, ties broken in favour of the first such unit in iteration
order, and reports that unit's distance rounded to two decimals.  Stated for
an arbitrary distance function, hence in particular for the haversine
distance the source passes. -/
theorem dispatcher_free_now_picks_nearest (now : ℤ) (dist : ℚ → ℚ → ℚ → ℚ → ℚ)
    (mobiles : List Mobile) (cLat cLng : ℚ) (activeOrders : List Order)
    (h : ∃ m ∈ mobiles, mobileFreeNow now m = true) :
    ∃ b, findBestMobile now dist mobiles cLat cLng activeOrders
          = some (b, roundTwo (distTo dist cLat cLng b)) ∧
      b ∈ mobiles ∧ mobileFreeNow now b = true ∧
      (∀ m ∈ mobiles, mobileFreeNow now m = true →
        distTo dist cLat cLng b ≤ distTo dist cLat cLng m) ∧
      ∃ pre pos, mobiles.filter (mobileFreeNow now) = pre ++ b :: pos ∧
        ∀ x ∈ pre, distTo dist cLat cLng b < distTo dist cLat cLng x := by
  cases hfil : mobiles.filter (mobileFreeNow now) with
  | nil =>
      exfalso
      rcases h with ⟨m, hm, hf⟩
      have : m ∈ mobiles.filter (mobileFreeNow now) := List.mem_filter.2 ⟨hm, hf⟩
      rw [hfil] at this
      exact List.not_mem_nil m this
  | cons m0 rest =>
      obtain ⟨b, heq, _, pre, pos, hdec, hpre, hpos⟩ :=
        selectClosestAux_spec dist cLat cLng rest m0
      have hbmem : b ∈ mobiles.filter (mobileFreeNow now) := by
        rw [hfil, hdec]
        exact List.mem_append.2 (Or.inr (List.mem_cons_self b pos))
      have hbfil := List.mem_filter.1 hbmem
      refine ⟨b, ?_, hbfil.1, hbfil.2, ?_, pre, pos, hdec, hpre⟩
      · simp only [findBestMobile, hfil, heq]
      · intro m hm hmf
        have : m ∈ m0 :: rest := by
          rw [← hfil]
          exact List.mem_filter.2 ⟨hm, hmf⟩
        rw [hdec] at this
        rcases List.mem_append.1 this with hmp | hmp
        · exact le_of_lt (hpre m hmp)
        · rcases List.mem_cons.1 hmp with hmb | hmp'
          · rw [hmb]
          · exact hpos m hmp'

/-- Concrete instantiation of claim C1 (grid distance standing in for the
abstract distance function): two units, one busy and one free. -/
theorem dispatcher_free_now_picks_nearest_witness :
    ∃ b, findBestMobile 100 gridDist freeScenarioMobiles 0 0 []
          = some (b, roundTwo (distTo gridDist 0 0 b)) ∧
      b ∈ freeScenarioMobiles ∧ mobileFreeNow 100 b = true ∧
      (∀ m ∈ freeScenarioMobiles, mobileFreeNow 100 m = true →
        distTo gridDist 0 0 b ≤ distTo gridDist 0 0 m) ∧
      ∃ pre pos, freeScenarioMobiles.filter (mobileFreeNow 100) = pre ++ b :: pos ∧
        ∀ x ∈ pre, distTo gridDist 0 0 b < distTo gridDist 0 0 x :=
  dispatcher_free_now_picks_nearest 100 gridDist freeScenarioMobiles 0 0 []
    ⟨⟨2, 5, 5, 0, true, none⟩, by decide, by decide⟩

/-- The most-recently-requested lookup really returns an active order of the
given mobile with maximal requested time. -/
theorem lastOrderForMobile_spec (activeOrders : List Order) (mid : ℕ) (o : Order)
    (h : lastOrderForMobile activeOrders mid = some o) :
    o ∈ activeOrders ∧ o.mobileId = some mid ∧
      ∀ q ∈ activeOrders, q.mobileId = some mid →
        q.requestedDatetime ≤ o.requestedDatetime := by
  unfold lastOrderForMobile at h
  cases hsort : List.insertionSort byRequestedDesc
      (activeOrders.filter (fun q => decide (q.mobileId = some mid))) with
  | nil => rw [hsort] at h; cases h
  | cons hd tl =>
      rw [hsort] at h
      have ho : hd = o := by
        simpa using h
      have homem : hd ∈ activeOrders.filter (fun q => decide (q.mobileId = some mid)) := by
        rw [← List.mem_insertionSort (r := byRequestedDesc), hsort]
        exact List.mem_cons_self hd tl
      have h2 := List.mem_filter.1 homem
      rw [← ho]
      refine ⟨h2.1, by simpa using h2.2, ?_⟩
      intro q hq hqm
      have hqmem : q ∈ activeOrders.filter (fun x => decide (x.mobileId = some mid)) :=
        List.mem_filter.2 ⟨hq, by simpa using hqm⟩
      exact head_insertionSort_rel byRequestedDesc (fun a => le_rfl) _ hd tl hsort q hqmem

/-! ### Claim C2 -/

/-- Claim C2: when the unit list is non-empty and no unit is free now,
`findBestMobile` returns a unit whose `available_from` is earliest among all
units, and the reported distance is the (two-decimal rounded) distance from
that unit's effective position — the location of its most-recently-requested
in-flight order if one exists, else its own stored location — to the job.
Stated for an arbitrary distance function. -/
theorem dispatcher_all_busy_picks_earliest_available (now : ℤ)
    (dist : ℚ → ℚ → ℚ → ℚ → ℚ) (mobiles : List Mobile) (cLat cLng : ℚ)
    (activeOrders : List Order) (hne : mobiles ≠ [])
    (hbusy : ∀ m ∈ mobiles, mobileFreeNow now m = false) :
    ∃ b, findBestMobile now dist mobiles cLat cLng activeOrders
          = some (b, roundTwo (dist (effectiveStart activeOrders b).1
                                    (effectiveStart activeOrders b).2 cLat cLng)) ∧
      b ∈ mobiles ∧
      (∀ m ∈ mobiles, b.availableFrom ≤ m.availableFrom) ∧
      ∀ o, lastOrderForMobile activeOrders b.id = some o →
        o ∈ activeOrders ∧ o.mobileId = some b.id ∧
        ∀ q ∈ activeOrders, q.mobileId = some b.id →
          q.requestedDatetime ≤ o.requestedDatetime := by
  have hfil : mobiles.filter (mobileFreeNow now) = [] := by
    rw [List.filter_eq_nil_iff]
    intro m hm
    rw [hbusy m hm]
    exact Bool.false_ne_true
  cases hsort : List.insertionSort byAvailFrom
      (mobiles.map (fun m =>
        let p := effectiveStart activeOrders m
        (m, roundTwo (dist p.1 p.2 cLat cLng)))) with
  | nil =>
      exfalso
      have hperm := List.perm_insertionSort byAvailFrom
        (mobiles.map (fun m =>
          let p := effectiveStart activeOrders m
          (m, roundTwo (dist p.1 p.2 cLat cLng))))
      rw [hsort] at hperm
      have := hperm.symm.eq_nil
      rw [List.map_eq_nil_iff] at this
      exact hne this
  | cons hd tl =>
      have hdmem : hd ∈ mobiles.map (fun m =>
          let p := effectiveStart activeOrders m
          (m, roundTwo (dist p.1 p.2 cLat cLng))) := by
        rw [← List.mem_insertionSort (r := byAvailFrom), hsort]
        exact List.mem_cons_self hd tl
      obtain ⟨b, hb, hfb⟩ := List.mem_map.1 hdmem
      refine ⟨b, ?_, hb, ?_, fun o ho => lastOrderForMobile_spec activeOrders b.id o ho⟩
      · simp only [findBestMobile, hfil, hsort, List.head?]
        rw [← hfb]
      · intro m hm
        have hmmem : (fun m =>
            let p := effectiveStart activeOrders m
            (m, roundTwo (dist p.1 p.2 cLat cLng))) m ∈ mobiles.map (fun m =>
            let p := effectiveStart activeOrders m
            (m, roundTwo (dist p.1 p.2 cLat cLng))) := List.mem_map_of_mem _ hm
        have hrel := head_insertionSort_rel byAvailFrom (fun a => le_rfl) _ hd tl hsort _ hmmem
        have : hd.1.availableFrom ≤ m.availableFrom := hrel
        rw [← hfb] at this
        exact this

/-- Concrete instantiation of claim C2: two busy units, the second freeing up
first, with an in-flight order defining the first unit's effective position. -/
theorem dispatcher_all_busy_picks_earliest_available_witness :
    ∃ b, findBestMobile 100 gridDist busyScenarioMobiles 0 0 busyScenarioOrders
          = some (b, roundTwo (gridDist (effectiveStart busyScenarioOrders b).1
                                        (effectiveStart busyScenarioOrders b).2 0 0)) ∧
      b ∈ busyScenarioMobiles ∧
      (∀ m ∈ busyScenarioMobiles, b.availableFrom ≤ m.availableFrom) ∧
      ∀ o, lastOrderForMobile busyScenarioOrders b.id = some o →
        o ∈ busyScenarioOrders ∧ o.mobileId = some b.id ∧
        ∀ q ∈ busyScenarioOrders, q.mobileId = some b.id →
          q.requestedDatetime ≤ o.requestedDatetime :=
  dispatcher_all_busy_picks_earliest_available 100 gridDist busyScenarioMobiles 0 0
    busyScenarioOrders (by decide) (by decide)

/-! ### Claim C5 -/

/-- Claim C5: for every intensity level in 1–5 and every distance ≥ 0 the
price is base 50 plus 20 per level plus 2 per kilometre, rounded to a
nearest whole currency unit (no integer is closer to the raw value than the
returned price), independent of the service-category set, and level 3 with
10 km yields 130 for every category. -/
theorem price_formula_category_independent (level : ℤ) (dkm : ℚ) (cat : List SubService)
    (h1 : 1 ≤ level) (h2 : level ≤ 5) (h3 : 0 ≤ dkm) :
    calculatePrice level dkm cat = jsRound (50 + 20 * level + 2 * dkm) ∧
    (∀ cat', calculatePrice level dkm cat' = calculatePrice level dkm cat) ∧
    (∀ z : ℤ, |(50 + 20 * (level : ℚ) + 2 * dkm) - (calculatePrice level dkm cat : ℚ)|
        ≤ |(50 + 20 * (level : ℚ) + 2 * dkm) - (z : ℚ)|) ∧
    (∀ cat', calculatePrice 3 10 cat' = 130) := by
  have hconc : ∀ cat' : List SubService, calculatePrice 3 10 cat' = 130 := by
    intro cat'
    norm_num [calculatePrice, jsRound]
  refine ⟨rfl, fun cat' => rfl, ?_, hconc⟩
  intro z
  have hc : calculatePrice level dkm cat = round (50 + 20 * (level : ℚ) + 2 * dkm) := by
    rw [calculatePrice, jsRound, round_eq]
  rw [hc]
  exact round_le (50 + 20 * (level : ℚ) + 2 * dkm) z

/-- Concrete instantiation of claim C5 at level 3, 10 km, category
`{exterior}`. -/
theorem price_formula_category_independent_witness :
    calculatePrice 3 10 [SubService.exterior] = jsRound (50 + 20 * 3 + 2 * 10) ∧
    (∀ cat', calculatePrice 3 10 cat' = calculatePrice 3 10 [SubService.exterior]) ∧
    (∀ z : ℤ, |(50 + 20 * ((3 : ℤ) : ℚ) + 2 * 10) - (calculatePrice 3 10 [SubService.exterior] : ℚ)|
        ≤ |(50 + 20 * ((3 : ℤ) : ℚ) + 2 * 10) - (z : ℚ)|) ∧
    (∀ cat', calculatePrice 3 10 cat' = 130) :=
  price_formula_category_independent 3 10 [SubService.exterior]
    (by decide) (by decide) (by decide)

/-! ### Claim C6 -/

/-- Claim C6: for every level in 1–5 and category set, duration is base 30
plus 10 per level, plus a fixed 15 when the category contains `polish` and a
fixed 10 when it contains `wax`; adding any other sub-service changes
nothing, and duration is strictly increasing in level with category fixed. -/
theorem duration_formula_monotone (level : ℤ) (cat : List SubService)
    (h1 : 1 ≤ level) (h2 : level ≤ 5) :
    calculateDuration level cat = 30 + 10 * level
        + (if SubService.polish ∈ cat then 15 else 0)
        + (if SubService.wax ∈ cat then 10 else 0) ∧
    (∀ s, s ≠ SubService.polish → s ≠ SubService.wax →
      calculateDuration level (s :: cat) = calculateDuration level cat) ∧
    (∀ level', level < level' → calculateDuration level cat < calculateDuration level' cat) := by
  refine ⟨rfl, ?_, ?_⟩
  · intro s hs1 hs2
    by_cases hpol : SubService.polish ∈ cat <;> by_cases hwax : SubService.wax ∈ cat <;>
      simp [calculateDuration, List.mem_cons, hpol, hwax, Ne.symm hs1, Ne.symm hs2]
  · intro level' hlt
    unfold calculateDuration
    have h10 : 10 * level < 10 * level' := by linarith
    linarith

/-- Concrete instantiation of claim C6 at level 2 with category `{polish}`. -/
theorem duration_formula_monotone_witness :
    calculateDuration 2 [SubService.polish] = 30 + 10 * 2
        + (if SubService.polish ∈ [SubService.polish] then 15 else 0)
        + (if SubService.wax ∈ [SubService.polish] then 10 else 0) ∧
    (∀ s, s ≠ SubService.polish → s ≠ SubService.wax →
      calculateDuration 2 (s :: [SubService.polish]) = calculateDuration 2 [SubService.polish]) ∧
    (∀ level', 2 < level' →
      calculateDuration 2 [SubService.polish] < calculateDuration level' [SubService.polish]) :=
  duration_formula_monotone 2 [SubService.polish] (by decide) (by decide)

/-! ### Claim C8 -/

/-- Claim C8 counterexample: the pricing functions do not fail on invalid
input — at level 0 (outside 1–5) and distance −1 (negative) they still
produce a price (48) and a duration (30), contradicting the claim that no
value is produced for such inputs. -/
theorem pricing_total_on_invalid_input :
    calculatePrice 0 (-1) [] = 48 ∧ calculateDuration 0 [] = 30 := by
  refine ⟨by norm_num [calculatePrice, jsRound], by norm_num [calculateDuration]⟩

/-- Claim C8 amended: the level check lives in the route-validation layer,
not in the pricing functions — `createJob` rejects a dirt level outside 1–5
with `InvalidInput` before any pricing computation or store write. -/
theorem create_job_rejects_invalid_dirt_level (now : ℤ) (dist : ℚ → ℚ → ℚ → ℚ → ℚ)
    (od : OrderData) (st : DBState) (h : ¬ (1 ≤ od.dirtLevel ∧ od.dirtLevel ≤ 5)) :
    createJob now dist od st = .error .invalidInput := by
  have hv : ¬ validOrderData od := fun hva => h hva.2.2.2.2.2.2
  simp [createJob, hv]

/-- Concrete instantiation of the amended claim C8: dirt level 0 is rejected. -/
theorem create_job_rejects_invalid_dirt_level_witness :
    createJob 0 gridDist invalidDirtOd emptyDB = .error .invalidInput :=
  create_job_rejects_invalid_dirt_level 0 gridDist invalidDirtOd emptyDB (by decide)

/-- The queue-advance lookup really returns a pending order of the given
mobile with minimal requested time. -/
theorem nextPendingOrder_spec (orders : List Order) (mid : ℕ) (p : Order)
    (h : nextPendingOrder orders mid = some p) :
    p ∈ orders ∧ p.mobileId = some mid ∧ p.status = "pending" ∧
      ∀ q ∈ orders, q.mobileId = some mid → q.status = "pending" →
        p.requestedDatetime ≤ q.requestedDatetime := by
  unfold nextPendingOrder at h
  cases hsort : List.insertionSort byRequestedAsc
      (orders.filter (fun o => decide (o.mobileId = some mid ∧ o.status = "pending"))) with
  | nil => rw [hsort] at h; cases h
  | cons hd tl =>
      rw [hsort] at h
      have ho : hd = p := by simpa using h
      have homem : hd ∈ orders.filter
          (fun o => decide (o.mobileId = some mid ∧ o.status = "pending")) := by
        rw [← List.mem_insertionSort (r := byRequestedAsc), hsort]
        exact List.mem_cons_self hd tl
      have h2 := List.mem_filter.1 homem
      have h3 : hd.mobileId = some mid ∧ hd.status = "pending" := by simpa using h2.2
      rw [← ho]
      refine ⟨h2.1, h3.1, h3.2, ?_⟩
      intro q hq hqm hqs
      have hqmem : q ∈ orders.filter
          (fun o => decide (o.mobileId = some mid ∧ o.status = "pending")) :=
        List.mem_filter.2 ⟨hq, by simp [hqm, hqs]⟩
      exact head_insertionSort_rel byRequestedAsc (fun a => le_rfl) _ hd tl hsort q hqmem

/-! ### Claim C3 -/

/-- Claim C3 counterexample: the claim quantifies over every transition to a
terminal status, but the public status route performs no queue advance at
all.  Cancelling order 10 (bound to unit 1, with order 11 pending behind it)
through `PATCH /api/orders/:id/status` leaves unit 1 still pointing at order
10 and still unavailable, and order 11 still pending — neither the promotion
nor the freeing the claim requires takes place. -/
theorem public_terminal_skips_queue_advance :
    ∃ st', publicSetStatus 1000 10 ("cancelled") none cexState = .ok st' ∧
      (∀ mb ∈ st'.mobiles, mb.currentOrderId = some 10 ∧ mb.isAvailable = false) ∧
      (∀ o ∈ st'.orders, o.id = 11 → o.status = "pending") := by
  exact ⟨_, rfl, by decide, by decide⟩

/-- Claim C3 amended: restricted to the admin status route (the only caller
of the queue advancer).  On a terminal transition of an order `j` bound to
mobile `mid`: if a pending order for `mid` exists (in the post-transition
order table `st1`), the earliest-requested one `p` is promoted — status
`assigned`, the mobile's current order becomes `p` and its location becomes
`j`'s location; otherwise the mobile is freed — available, no current order,
`available_from = now`, location `j`'s location. -/
theorem admin_terminal_promotes_or_frees (now : ℤ) (oid : ℕ) (status : String)
    (notes : Option String) (st st1 st' : DBState) (j : Order) (mid : ℕ)
    (hvalid : status ∈ validStatuses)
    (hfind : findOrder st.orders oid = some j)
    (hterm : status = "completed" ∨ status = "cancelled")
    (hmid : j.mobileId = some mid)
    (hst1 : st1 = adminTransitionCore now oid status notes j st)
    (hok : adminSetStatus now oid status notes st = .ok st') :
    (∀ p, nextPendingOrder st1.orders mid = some p →
      p.mobileId = some mid ∧ p.status = "pending" ∧ p ∈ st1.orders ∧
      (∀ q ∈ st1.orders, q.mobileId = some mid → q.status = "pending" →
        p.requestedDatetime ≤ q.requestedDatetime) ∧
      (∀ q ∈ st'.orders, q.id = p.id → q.status = "assigned") ∧
      (∀ mb ∈ st.mobiles, mb.id = mid →
        { mb with currentOrderId := some p.id,
                  locationLat := j.locationLat, locationLng := j.locationLng } ∈ st'.mobiles)) ∧
    (nextPendingOrder st1.orders mid = none →
      ∀ mb ∈ st.mobiles, mb.id = mid →
        { mb with isAvailable := true, currentOrderId := none, availableFrom := now,
                  locationLat := j.locationLat, locationLng := j.locationLng } ∈ st'.mobiles) := by
  have hst' : st' = queueAdvance now j mid (adminTransitionCore now oid status notes j st) := by
    simp only [adminSetStatus, if_pos hvalid, hfind, if_pos hterm, hmid,
      Except.ok.injEq] at hok
    exact hok.symm
  subst hst1
  subst hst'
  constructor
  · intro p hnext
    obtain ⟨hpmem, hpmid, hpstat, hpmin⟩ := nextPendingOrder_spec _ mid p hnext
    refine ⟨hpmid, hpstat, hpmem, hpmin, ?_, ?_⟩
    · intro q hq hqid
      simp only [queueAdvance, hnext, updateOrderStatus] at hq
      rcases List.mem_map.1 hq with ⟨o, _, rfl⟩
      by_cases hoid : o.id = p.id
      · simp [hoid]
      · simp only [if_neg hoid] at hqid ⊢
        exact absurd hqid hoid
    · intro mb hmb hmbid
      simp only [queueAdvance, hnext]
      have : mb ∈ (adminTransitionCore now oid status notes j st).mobiles := hmb
      have hmem := List.mem_map_of_mem (fun mb =>
        if mb.id = mid then
          { mb with currentOrderId := some p.id,
                    locationLat := j.locationLat, locationLng := j.locationLng }
        else mb) this
      simpa [hmbid] using hmem
  · intro hnone mb hmb hmbid
    simp only [queueAdvance, hnone]
    have : mb ∈ (adminTransitionCore now oid status notes j st).mobiles := hmb
    have hmem := List.mem_map_of_mem (fun mb =>
      if mb.id = mid then
        { mb with isAvailable := true, currentOrderId := none, availableFrom := now,
                  locationLat := j.locationLat, locationLng := j.locationLng }
      else mb) this
    simpa [hmbid] using hmem

/-- Concrete instantiation of the amended claim C3: completing order 20
promotes order 22 (requested at 200, earlier than order 21's 300) onto
unit 2 and moves the unit to order 20's location. -/
theorem admin_terminal_promotes_or_frees_witness :
    (∀ p, nextPendingOrder advState1.orders 2 = some p →
      p.mobileId = some 2 ∧ p.status = "pending" ∧ p ∈ advState1.orders ∧
      (∀ q ∈ advState1.orders, q.mobileId = some 2 → q.status = "pending" →
        p.requestedDatetime ≤ q.requestedDatetime) ∧
      (∀ q ∈ advResult.orders, q.id = p.id → q.status = "assigned") ∧
      (∀ mb ∈ advState.mobiles, mb.id = 2 →
        { mb with currentOrderId := some p.id,
                  locationLat := advOrder20.locationLat,
                  locationLng := advOrder20.locationLng } ∈ advResult.mobiles)) ∧
    (nextPendingOrder advState1.orders 2 = none →
      ∀ mb ∈ advState.mobiles, mb.id = 2 →
        { mb with isAvailable := true, currentOrderId := none, availableFrom := 1000,
                  locationLat := advOrder20.locationLat,
                  locationLng := advOrder20.locationLng } ∈ advResult.mobiles) :=
  admin_terminal_promotes_or_frees 1000 20 ("completed") none advState advState1 advResult
    advOrder20 2 (by decide) (by decide) (Or.inl rfl) rfl rfl rfl

/-! ### Claim C10 -/

/-- Claim C10: the promotion branch of the queue advancer writes only the
mobile's `current_order_id` and location; `is_available` and `available_from`
keep their previous values, so the unit stays marked busy with the
availability estimate computed for the finished order. -/
theorem queue_promotion_keeps_availability_fields (now : ℤ) (oid : ℕ) (status : String)
    (notes : Option String) (st st1 st' : DBState) (j : Order) (mid : ℕ) (p : Order)
    (hvalid : status ∈ validStatuses)
    (hfind : findOrder st.orders oid = some j)
    (hterm : status = "completed" ∨ status = "cancelled")
    (hmid : j.mobileId = some mid)
    (hst1 : st1 = adminTransitionCore now oid status notes j st)
    (hnext : nextPendingOrder st1.orders mid = some p)
    (hok : adminSetStatus now oid status notes st = .ok st') :
    ∀ mb ∈ st.mobiles, mb.id = mid →
      ∃ mb' ∈ st'.mobiles, mb'.id = mid ∧
        mb'.isAvailable = mb.isAvailable ∧ mb'.availableFrom = mb.availableFrom ∧
        mb'.currentOrderId = some p.id ∧
        mb'.locationLat = j.locationLat ∧ mb'.locationLng = j.locationLng := by
  have hst' : st' = queueAdvance now j mid (adminTransitionCore now oid status notes j st) := by
    simp only [adminSetStatus, if_pos hvalid, hfind, if_pos hterm, hmid,
      Except.ok.injEq] at hok
    exact hok.symm
  subst hst1
  subst hst'
  intro mb hmb hmbid
  refine ⟨{ mb with currentOrderId := some p.id, locationLat := j.locationLat, locationLng := j.locationLng }, ?_, by simp [hmbid], rfl, rfl, rfl, rfl, rfl⟩
  simp only [queueAdvance, hnext]
  have hmem := List.mem_map_of_mem (fun mb =>
    if mb.id = mid then
      { mb with currentOrderId := some p.id,
                locationLat := j.locationLat, locationLng := j.locationLng }
    else mb)
    (hmb : mb ∈ (adminTransitionCore now oid status notes j st).mobiles)
  simpa [hmbid] using hmem

/-- Concrete instantiation of claim C10 on the `advState` fixture: promoting
order 22 leaves unit 2's `is_available` and `available_from` untouched. -/
theorem queue_promotion_keeps_availability_fields_witness :
    ∃ mb' ∈ advResult.mobiles, mb'.id = 2 ∧
      mb'.isAvailable = advMobile.isAvailable ∧
      mb'.availableFrom = advMobile.availableFrom ∧
      mb'.currentOrderId = some advOrder22.id ∧
      mb'.locationLat = advOrder20.locationLat ∧
      mb'.locationLng = advOrder20.locationLng :=
  queue_promotion_keeps_availability_fields 1000 20 ("completed") none advState advState1
    advResult advOrder20 2 advOrder22 (by decide) (by decide) (Or.inl rfl) rfl rfl
    (by decide) rfl advMobile (by decide) rfl

/-! ### More helper lemmas -/

/-- A row of `updateOrderStatus` carrying the targeted id has the new status
and timestamp. -/
theorem mem_updateOrderStatus_self (oid : ℕ) (s : String) (now : ℤ) (orders : List Order)
    (q : Order) (hq : q ∈ updateOrderStatus oid s now orders) (hid : q.id = oid) :
    q.status = s ∧ q.updatedAt = now := by
  unfold updateOrderStatus at hq
  rcases List.mem_map.1 hq with ⟨o, _, rfl⟩
  by_cases h : o.id = oid
  · simp [if_pos h]
  · rw [if_neg h] at hid
    exact absurd hid h

/-- A row of `updateOrderStatus` with a different id was already in the
input table, unchanged. -/
theorem mem_updateOrderStatus_other (oid : ℕ) (s : String) (now : ℤ) (orders : List Order)
    (q : Order) (hq : q ∈ updateOrderStatus oid s now orders) (hid : q.id ≠ oid) :
    q ∈ orders := by
  unfold updateOrderStatus at hq
  rcases List.mem_map.1 hq with ⟨o, ho, rfl⟩
  by_cases h : o.id = oid
  · exfalso
    apply hid
    simp [if_pos h, h]
  · simpa [if_neg h] using ho

/-! ### Claim C7 -/

/-- Claim C7 counterexample: the public status route performs no existence
check.  With no order 99 in the store, the transition request succeeds (no
`JobNotFound`) and still appends an activity-log entry for order 99 — the
claim requires a `JobNotFound` error with every log unchanged. -/
theorem public_status_missing_job_still_logs :
    findOrder c7State.orders 99 = none ∧
    ∃ st', publicSetStatus 500 99 ("assigned") none c7State = .ok st' ∧
      st'.logs = c7State.logs ++ [⟨99, "assigned", none, "Status updated", 500⟩] := by
  exact ⟨by decide, _, rfl, by decide⟩

/-- Claim C7 amended: restricted to the admin status route, which implements
the full contract.  An unrecognized status yields `InvalidStatus` and a
missing order yields `JobNotFound`, both decided before any write; otherwise
the route returns the updated store in which every row with the target id
carries the new status and timestamp, and the appended log suffix contains
exactly one entry for the transitioned order, its first element being the
transition entry itself. -/
theorem admin_set_status_contract (now : ℤ) (oid : ℕ) (status : String)
    (notes : Option String) (st : DBState) :
    (status ∉ validStatuses → adminSetStatus now oid status notes st = .error .invalidStatus) ∧
    (status ∈ validStatuses → findOrder st.orders oid = none →
      adminSetStatus now oid status notes st = .error .orderNotFound) ∧
    ∀ j, status ∈ validStatuses → findOrder st.orders oid = some j →
      ∃ st', adminSetStatus now oid status notes st = .ok st' ∧
        (∀ q ∈ st'.orders, q.id = oid → q.status = status ∧ q.updatedAt = now) ∧
        ∃ newLogs, st'.logs = st.logs ++ newLogs ∧
          newLogs.countP (fun e => decide (e.orderId = oid)) = 1 ∧
          newLogs.head? = some ⟨oid, status, j.mobileId,
            notes.getD ("Status updated to " ++ status ++ " by admin"), now⟩ := by
  refine ⟨?_, ?_, ?_⟩
  · intro h
    simp [adminSetStatus, h]
  · intro hval hnone
    simp [adminSetStatus, if_pos hval, hnone]
  · intro j hval hfind
    by_cases hterm : status = "completed" ∨ status = "cancelled"
    · cases hjm : j.mobileId with
      | none =>
          refine ⟨adminTransitionCore now oid status notes j st, ?_, ?_,
            [⟨oid, status, none,
              notes.getD ("Status updated to " ++ status ++ " by admin"), now⟩],
            ?_, ?_, rfl⟩
          · simp [adminSetStatus, if_pos hval, hfind, if_pos hterm, hjm]
          · intro q hq hqid
            exact mem_updateOrderStatus_self oid status now st.orders q hq hqid
          · simp [adminTransitionCore, hjm]
          · simp [List.countP_cons]
      | some mid =>
          cases hnext : nextPendingOrder
              (adminTransitionCore now oid status notes j st).orders mid with
          | none =>
              refine ⟨queueAdvance now j mid (adminTransitionCore now oid status notes j st),
                ?_, ?_,
                [⟨oid, status, some mid,
                  notes.getD ("Status updated to " ++ status ++ " by admin"), now⟩],
                ?_, ?_, rfl⟩
              · simp [adminSetStatus, if_pos hval, hfind, if_pos hterm, hjm]
              · intro q hq hqid
                simp only [queueAdvance, hnext] at hq
                exact mem_updateOrderStatus_self oid status now st.orders q hq hqid
              · simp only [queueAdvance, hnext]
                simp [adminTransitionCore, hjm]
              · simp [List.countP_cons]
          | some next =>
              have hnid : next.id ≠ oid := by
                obtain ⟨hmem, _, hpend, _⟩ := nextPendingOrder_spec _ mid next hnext
                intro hcontra
                have hns := (mem_updateOrderStatus_self oid status now st.orders
                  next hmem hcontra).1
                rw [hpend] at hns
                rcases hterm with h | h <;> rw [h] at hns <;> exact absurd hns (by decide)
              refine ⟨queueAdvance now j mid (adminTransitionCore now oid status notes j st),
                ?_, ?_,
                [⟨oid, status, some mid,
                  notes.getD ("Status updated to " ++ status ++ " by admin"), now⟩,
                 ⟨next.id, "assigned", some mid, "Auto-assigned from queue.", now⟩],
                ?_, ?_, rfl⟩
              · simp [adminSetStatus, if_pos hval, hfind, if_pos hterm, hjm]
              · intro q hq hqid
                simp only [queueAdvance, hnext] at hq
                have hq2 : q ∈ updateOrderStatus oid status now st.orders :=
                  mem_updateOrderStatus_other next.id ("assigned") now _ q hq
                    (by rw [hqid]; exact Ne.symm hnid)
                exact mem_updateOrderStatus_self oid status now st.orders q hq2 hqid
              · simp only [queueAdvance, hnext]
                simp [adminTransitionCore, hjm, List.append_assoc]
              · simp [List.countP_cons, hnid]
    · refine ⟨adminTransitionCore now oid status notes j st, ?_, ?_,
        [⟨oid, status, j.mobileId,
          notes.getD ("Status updated to " ++ status ++ " by admin"), now⟩],
        rfl, ?_, rfl⟩
      · simp [adminSetStatus, if_pos hval, hfind, hterm]
      · intro q hq hqid
        exact mem_updateOrderStatus_self oid status now st.orders q hq hqid
      · simp [List.countP_cons]

/-- Concrete instantiation of the amended claim C7: an unrecognized status
string is rejected with `InvalidStatus`. -/
theorem admin_set_status_contract_witness :
    adminSetStatus 500 30 ("bogus") none c7State = .error .invalidStatus :=
  (admin_set_status_contract 500 30 ("bogus") none c7State).1 (by decide)

/-- A selected unit is drawn from the unit list, and it is free exactly when
some unit was free: scenario A only ever picks from the free sub-list and
scenario B only runs when nothing is free. -/
theorem findBestMobile_free_iff (now : ℤ) (dist : ℚ → ℚ → ℚ → ℚ → ℚ)
    (mobiles : List Mobile) (cLat cLng : ℚ) (activeOrders : List Order) (b : Mobile) (d : ℚ)
    (h : findBestMobile now dist mobiles cLat cLng activeOrders = some (b, d)) :
    b ∈ mobiles ∧
      (mobileFreeNow now b = true ↔ ∃ m ∈ mobiles, mobileFreeNow now m = true) := by
  cases hfil : mobiles.filter (mobileFreeNow now) with
  | cons m0 rest =>
      obtain ⟨b', heq, _, pre, pos, hdec, _, _⟩ := selectClosestAux_spec dist cLat cLng rest m0
      have hb' : b = b' := by
        simp only [findBestMobile, hfil, heq, Option.some.injEq, Prod.mk.injEq] at h
        exact h.1.symm
      have hbmem : b ∈ mobiles.filter (mobileFreeNow now) := by
        rw [hfil, hdec, hb']
        exact List.mem_append.2 (Or.inr (List.mem_cons_self b' pos))
      have hbfil := List.mem_filter.1 hbmem
      exact ⟨hbfil.1, iff_of_true hbfil.2 ⟨b, hbfil.1, hbfil.2⟩⟩
  | nil =>
      have hnofree : ∀ m ∈ mobiles, mobileFreeNow now m = false := by
        intro m hm
        by_contra hc
        have hmt : mobileFreeNow now m = true := by
          cases hmf : mobileFreeNow now m
          · exact absurd hmf hc
          · rfl
        have : m ∈ mobiles.filter (mobileFreeNow now) := List.mem_filter.2 ⟨hm, hmt⟩
        rw [hfil] at this
        exact List.not_mem_nil m this
      simp only [findBestMobile, hfil] at h
      cases hsort : List.insertionSort byAvailFrom
          (mobiles.map (fun m =>
            let p := effectiveStart activeOrders m
            (m, roundTwo (dist p.1 p.2 cLat cLng)))) with
      | nil => rw [hsort] at h; cases h
      | cons hd tl =>
          rw [hsort] at h
          have hhd : hd = (b, d) := by simpa using h
          have hdmem : hd ∈ mobiles.map (fun m =>
              let p := effectiveStart activeOrders m
              (m, roundTwo (dist p.1 p.2 cLat cLng))) := by
            rw [← List.mem_insertionSort (r := byAvailFrom), hsort]
            exact List.mem_cons_self hd tl
          rcases List.mem_map.1 hdmem with ⟨m, hm, hfm⟩
          have hbm : b ∈ mobiles := by
            have : m = b := congrArg Prod.fst (hfm.trans hhd)
            rw [← this]
            exact hm
          refine ⟨hbm, iff_of_false ?_ ?_⟩
          · rw [hnofree b hbm]
            exact Bool.false_ne_true
          · rintro ⟨m', hm', hfree⟩
            rw [hnofree m' hm'] at hfree
            exact Bool.false_ne_true hfree

/-! ### Claim C9 -/

/-- Claim C9: order creation schedules the deferred one-shot confirmation
exactly when the chosen unit was free at dispatch time (the returned timer
flag), and the deferred task's conditional update is guarded by the order
still being pending — when no matching pending row exists the task leaves
the whole store unchanged, and when one does it sets the order to `assigned`
with one log entry and does not touch any mobile. -/
theorem deferred_auto_update_guarded (now : ℤ) (oid mid : ℕ) (st : DBState) :
    ((∀ o ∈ st.orders, o.id = oid → o.status ≠ "pending") →
      autoStatusUpdate now oid mid st = st) ∧
    ((∃ o ∈ st.orders, o.id = oid ∧ o.status = "pending") →
      (autoStatusUpdate now oid mid st).mobiles = st.mobiles ∧
      (autoStatusUpdate now oid mid st).logs = st.logs ++
        [⟨oid, "assigned", some mid, "Order automatically confirmed and assigned", now⟩] ∧
      ∀ o ∈ st.orders, o.id = oid → o.status = "pending" →
        { o with status := "assigned", updatedAt := now }
          ∈ (autoStatusUpdate now oid mid st).orders) ∧
    ∀ dist od st1 oid' timer, createJob now dist od st = .ok (st1, oid', timer) →
      (timer = true ↔ ∃ m ∈ st.mobiles, mobileFreeNow now m = true) := by
  refine ⟨?_, ?_, ?_⟩
  · intro hno
    have hcond : ¬ (st.orders.any (fun o => decide (o.id = oid ∧ o.status = "pending")) = true) := by
      simp only [List.any_eq_true, decide_eq_true_eq, not_exists]
      rintro o ⟨ho, hid, hstat⟩
      exact hno o ho hid hstat
    unfold autoStatusUpdate
    rw [if_neg hcond]
  · intro hpend
    have hcond : st.orders.any (fun o => decide (o.id = oid ∧ o.status = "pending")) = true := by
      rcases hpend with ⟨o, ho, hid, hstat⟩
      simp only [List.any_eq_true, decide_eq_true_eq]
      exact ⟨o, ho, hid, hstat⟩
    refine ⟨?_, ?_, ?_⟩
    · unfold autoStatusUpdate
      rw [if_pos hcond]
    · unfold autoStatusUpdate
      rw [if_pos hcond]
    · intro o ho hid hstat
      unfold autoStatusUpdate
      rw [if_pos hcond]
      have hmem := List.mem_map_of_mem (fun o =>
        if o.id = oid ∧ o.status = "pending" then
          { o with status := "assigned", updatedAt := now }
        else o) ho
      simpa [hid, hstat] using hmem
  · intro dist od st1 oid' timer hok
    by_cases hv : validOrderData od
    · cases hbm : findBestMobile now dist st.mobiles od.locationLat od.locationLng
          (activeOrdersOf st) with
      | none => simp [createJob, if_pos hv, hbm] at hok
      | some bd =>
          rcases bd with ⟨best, dkm⟩
          simp only [createJob, if_pos hv, hbm, Except.ok.injEq, Prod.mk.injEq] at hok
          have htimer : timer = mobileFreeNow now best := hok.2.2.symm
          rw [htimer]
          have hiff := (findBestMobile_free_iff now dist st.mobiles od.locationLat
            od.locationLng (activeOrdersOf st) best dkm hbm).2
          exact hiff
    · simp [createJob, hv] at hok

/-- Concrete instantiation of claim C9's guard: order 99 does not exist in
the store, so the deferred task changes nothing. -/
theorem deferred_auto_update_guarded_witness :
    autoStatusUpdate 700 99 1 c7State = c7State :=
  (deferred_auto_update_guarded 700 99 1 c7State).1 (by decide)

/-! ### Claim C4 -/

/-- Claim C4 counterexample: `POST /api/orders` runs its three writes with no
transaction, so a store failure after the first write commits the order row
while leaving the unit unclaimed.  With one free unit and a valid request,
stopping after write 1 yields a state containing the new pending order bound
to unit 1 while unit 1 is still `is_available` with no current order — the
partial state the claim says is never observable. -/
theorem create_job_partial_commit_observable :
    ∃ st', createJobPartial 1 0 gridDist validOd cjState = .ok st' ∧
      (∃ o ∈ st'.orders, o.id = 10 ∧ o.status = "pending" ∧ o.mobileId = some 1) ∧
      ∀ mb ∈ st'.mobiles, mb.isAvailable = true ∧ mb.currentOrderId = none := by
  exact ⟨_, rfl, by decide, by decide⟩

/-- Claim C4 amended: only the admin status route is atomic.  Whatever single
write fails, the observable state of an admin status run is either the
initial store (ROLLBACK) or exactly the state the failure-free route commits;
order creation, by contrast, has no transaction (see the counterexample). -/
theorem admin_status_transaction_atomic (failAt : ℕ) (now : ℤ) (oid : ℕ) (status : String)
    (notes : Option String) (st : DBState) :
    (adminSetStatusFail failAt now oid status notes st).1 = st ∨
    adminSetStatus now oid status notes st
      = .ok (adminSetStatusFail failAt now oid status notes st).1 := by
  by_cases hval : status ∈ validStatuses
  · cases hfind : findOrder st.orders oid with
    | none =>
        left
        simp [adminSetStatusFail, if_pos hval, hfind]
    | some j =>
        by_cases hterm : status = "completed" ∨ status = "cancelled"
        · cases hjm : j.mobileId with
          | none =>
              by_cases hf : failAt < 2
              · left
                simp [adminSetStatusFail, if_pos hval, hfind, if_pos hterm, hjm, if_pos hf]
              · right
                simp [adminSetStatus, adminSetStatusFail, if_pos hval, hfind, if_pos hterm,
                  hjm, if_neg hf]
          | some mid =>
              cases hnext : nextPendingOrder
                  (adminTransitionCore now oid status notes j st).orders mid with
              | some next =>
                  by_cases hf : failAt < 5
                  · left
                    simp [adminSetStatusFail, if_pos hval, hfind, if_pos hterm, hjm, hnext,
                      if_pos hf]
                  · right
                    simp [adminSetStatus, adminSetStatusFail, if_pos hval, hfind,
                      if_pos hterm, hjm, hnext, if_neg hf]
              | none =>
                  by_cases hf : failAt < 3
                  · left
                    simp [adminSetStatusFail, if_pos hval, hfind, if_pos hterm, hjm, hnext,
                      if_pos hf]
                  · right
                    simp [adminSetStatus, adminSetStatusFail, if_pos hval, hfind,
                      if_pos hterm, hjm, hnext, if_neg hf]
        · by_cases hf : failAt < 2
          · left
            simp [adminSetStatusFail, if_pos hval, hfind, hterm, if_pos hf]
          · right
            simp [adminSetStatus, adminSetStatusFail, if_pos hval, hfind, hterm, if_neg hf]
  · left
    simp [adminSetStatusFail, hval]

/-- Concrete instantiation of the amended claim C4: failing the very first
write of the admin transition on order 20 observes either the untouched
store or the fully committed one. -/
theorem admin_status_transaction_atomic_witness :
    (adminSetStatusFail 0 1000 20 ("completed") none advState).1 = advState ∨
    adminSetStatus 1000 20 ("completed") none advState
      = .ok (adminSetStatusFail 0 1000 20 ("completed") none advState).1 :=
  admin_status_transaction_atomic 0 1000 20 ("completed") none advState

end CarWash
